import Mathlib

/-!
Verification of the cfbot submission scheduler and patch-application
pipeline (`cfbot_patch.py`, `cfbot_commitfest_rpc.py`, `cfbot_config.py`),
as a shallow embedding: the postgres tables become lists of rows, the SQL
queries become filter/minimum functions over those lists, and the
subprocess-driven pipeline becomes a step function over an environment
recording the outcome of each external command.
-/

namespace Cfbot

/-! ### Database model

Rows of the `submission` table, restricted to the columns the queries in
`cfbot_patch.py` use.  Message ids are lists of characters (matching the
archive scraper, which works on captured substrings of the page); commit
ids and statuses are strings; timestamps are integers. -/

structure SubmissionRow where
  commitfest_id : Nat
  submission_id : Nat
  status : String
  last_message_id : Option (List Char)
  last_branch_message_id : Option (List Char)
  last_branch_commit_id : Option String
  last_email_time : Option Int
  last_branch_time : Option Int
  deriving DecidableEq

/-- The database: the `submission` table, the `status` column of the
`branch` table, and the current time (`now()`), in arbitrary integer time
units where one hour is 3600. -/
structure Db where
  submissions : List SubmissionRow
  branch_statuses : List String
  now : Int
  deriving DecidableEq

/-- `cfbot_config.CONCURRENT_BUILDS` -/
def CONCURRENT_BUILDS : Nat := 1

/-- `cfbot_config.CYCLE_TIME` (hours for a full bitrot cycle). -/
def CYCLE_TIME : ℚ := 48

/-- One hour of the integer time unit used by `Db.now`. -/
def oneHour : Int := 3600

/-- The scheduling-eligible statuses
(`status IN ('Ready for Committer', 'Needs review', 'Waiting on Author')`). -/
def activeStatuses : List String :=
  ["Ready for Committer", "Needs review", "Waiting on Author"]

def isActive (r : SubmissionRow) : Bool := activeStatuses.contains r.status

/-- `last_message_id IS NOT NULL AND last_message_id IS DISTINCT FROM
last_branch_message_id` -/
def isStale (r : SubmissionRow) : Bool :=
  r.last_message_id.isSome && decide (r.last_message_id ≠ r.last_branch_message_id)

/-- The WHERE clause of the query in `choose_submission_with_new_patch`. -/
def staleActive (r : SubmissionRow) : Bool := isStale r && isActive r

/-! ### `ORDER BY key LIMIT 1` -/

/-- One minimal element of a list under a boolean comparison `le`
(the first among ties — a sound refinement of the tie order that
`ORDER BY ... LIMIT 1` leaves unspecified); `none` iff the list is empty. -/
def minByLe {α : Type} (le : α → α → Bool) : List α → Option α
  | [] => none
  | x :: xs =>
    match minByLe le xs with
    | none => some x
    | some m => if le x m then some x else some m

theorem minByLe_eq_none {α : Type} (le : α → α → Bool) (l : List α) :
    minByLe le l = none ↔ l = [] := by
  cases l with
  | nil => simp [minByLe]
  | cons x xs =>
    cases h : minByLe le xs with
    | none => simp [minByLe, h]
    | some m =>
      simp only [minByLe, h]
      refine ⟨fun hif => ?_, fun hc => by simp at hc⟩
      split at hif <;> simp at hif

theorem minByLe_mem {α : Type} (le : α → α → Bool) :
    ∀ (l : List α) (x : α), minByLe le l = some x → x ∈ l := by
  intro l
  induction l with
  | nil => intro x h; simp [minByLe] at h
  | cons a as ih =>
    intro x h
    cases h2 : minByLe le as with
    | none =>
      simp only [minByLe, h2] at h
      obtain rfl : a = x := Option.some.inj h
      exact List.mem_cons_self a as
    | some m =>
      simp only [minByLe, h2] at h
      by_cases hle : le a m = true
      · rw [if_pos hle] at h
        obtain rfl : a = x := Option.some.inj h
        exact List.mem_cons_self a as
      · rw [if_neg hle] at h
        obtain rfl : m = x := Option.some.inj h
        exact List.mem_cons_of_mem a (ih m h2)

theorem minByLe_le {α : Type} (le : α → α → Bool)
    (htot : ∀ a b : α, le a b = true ∨ le b a = true)
    (htrans : ∀ a b c : α, le a b = true → le b c = true → le a c = true) :
    ∀ (l : List α) (x : α), minByLe le l = some x → ∀ y ∈ l, le x y = true := by
  intro l
  induction l with
  | nil => intro x h; simp [minByLe] at h
  | cons a as ih =>
    intro x h y hy
    cases h2 : minByLe le as with
    | none =>
      simp only [minByLe, h2] at h
      obtain rfl : a = x := Option.some.inj h
      have has : as = [] := (minByLe_eq_none le as).mp h2
      subst has
      rcases List.mem_cons.mp hy with rfl | hys
      · rcases htot y y with h1 | h1 <;> exact h1
      · exact absurd hys (List.not_mem_nil y)
    | some m =>
      simp only [minByLe, h2] at h
      have hmins := ih m h2
      by_cases hle : le a m = true
      · rw [if_pos hle] at h
        obtain rfl : a = x := Option.some.inj h
        rcases List.mem_cons.mp hy with rfl | hys
        · rcases htot y y with h1 | h1 <;> exact h1
        · exact htrans _ m y hle (hmins y hys)
      · rw [if_neg hle] at h
        obtain rfl : m = x := Option.some.inj h
        rcases List.mem_cons.mp hy with rfl | hys
        · rcases htot y _ with h1 | h1
          · exact absurd h1 hle
          · exact h1
        · exact hmins y hys

/-! ### Scheduler: freshness query (`choose_submission_with_new_patch`) -/

/-- `ORDER BY last_email_time` ascending, with SQL NULLs last
(postgres default for ascending order). -/
def emailLe (a b : Option Int) : Bool :=
  match a, b with
  | _, none => true
  | none, some _ => false
  | some x, some y => decide (x ≤ y)

theorem emailLe_total (a b : Option Int) : emailLe a b = true ∨ emailLe b a = true := by
  rcases a with _ | x <;> rcases b with _ | y <;> simp [emailLe] <;> omega

theorem emailLe_trans (a b c : Option Int)
    (h1 : emailLe a b = true) (h2 : emailLe b c = true) : emailLe a c = true := by
  rcases a with _ | x <;> rcases b with _ | y <;> rcases c with _ | z <;>
    simp [emailLe] at * <;> omega

/-- `choose_submission_with_new_patch` (`cfbot_patch.py` 39-60): the stale
active submission with the oldest `last_email_time`, or `(None, None)`. -/
def choose_submission_with_new_patch (db : Db) : Option Nat × Option Nat :=
  match minByLe (fun a b => emailLe a.last_email_time b.last_email_time)
      (db.submissions.filter staleActive) with
  | some r => (some r.commitfest_id, some r.submission_id)
  | none => (none, none)

/-- Shared: when a stale active submission exists, the freshness query
returns one of minimal `last_email_time`. -/
theorem exists_oldest_staleActive (db : Db)
    (h : ∃ r ∈ db.submissions, staleActive r = true) :
    ∃ r ∈ db.submissions, staleActive r = true ∧
      choose_submission_with_new_patch db = (some r.commitfest_id, some r.submission_id) ∧
      ∀ s ∈ db.submissions, staleActive s = true →
        emailLe r.last_email_time s.last_email_time = true := by
  obtain ⟨r0, hr0mem, hr0⟩ := h
  have hne : db.submissions.filter staleActive ≠ [] := by
    intro hnil
    have hmem : r0 ∈ db.submissions.filter staleActive :=
      List.mem_filter.mpr ⟨hr0mem, hr0⟩
    rw [hnil] at hmem
    exact absurd hmem (List.not_mem_nil r0)
  cases hmin : minByLe (fun a b => emailLe a.last_email_time b.last_email_time)
      (db.submissions.filter staleActive) with
  | none => exact absurd ((minByLe_eq_none _ _).mp hmin) hne
  | some r =>
    have hrmem := minByLe_mem _ _ r hmin
    have hmins := minByLe_le (fun a b => emailLe a.last_email_time b.last_email_time)
      (fun a b => emailLe_total _ _) (fun a b c => emailLe_trans _ _ _) _ r hmin
    refine ⟨r, (List.mem_filter.mp hrmem).1, (List.mem_filter.mp hrmem).2, ?_, ?_⟩
    · simp only [choose_submission_with_new_patch, hmin]
    · intro s hs hsact
      exact hmins s (List.mem_filter.mpr ⟨hs, hsact⟩)

/-- C1: for every database state in which at least one submission is stale
(non-null `last_message_id` differing from `last_branch_message_id`) and has
an active status, `choose_submission_with_new_patch` returns a submission
from that set with the minimal `last_email_time`; it never returns one with
a newer `last_email_time` while an older eligible one exists. -/
theorem choose_with_new_patch_picks_oldest (db : Db)
    (h : ∃ r ∈ db.submissions, staleActive r = true) :
    ∃ r ∈ db.submissions, staleActive r = true ∧
      choose_submission_with_new_patch db = (some r.commitfest_id, some r.submission_id) ∧
      ∀ s ∈ db.submissions, staleActive s = true →
        emailLe r.last_email_time s.last_email_time = true :=
  exists_oldest_staleActive db h

/-- A database with two stale active submissions, the newer-email one
listed first. -/
def dbC1 : Db :=
  { submissions :=
      [ { commitfest_id := 1, submission_id := 4, status := "Needs review",
          last_message_id := some "m9".toList, last_branch_message_id := none,
          last_branch_commit_id := none, last_email_time := some 10,
          last_branch_time := none },
        { commitfest_id := 1, submission_id := 3, status := "Needs review",
          last_message_id := some "m2".toList,
          last_branch_message_id := some "m1".toList,
          last_branch_commit_id := none, last_email_time := some 5,
          last_branch_time := none } ],
    branch_statuses := [], now := 100000 }

theorem choose_with_new_patch_picks_oldest_witness :
    ∃ r ∈ dbC1.submissions, staleActive r = true ∧
      choose_submission_with_new_patch dbC1 = (some r.commitfest_id, some r.submission_id) ∧
      ∀ s ∈ dbC1.submissions, staleActive s = true →
        emailLe r.last_email_time s.last_email_time = true :=
  choose_with_new_patch_picks_oldest dbC1 (by decide)

/-! ### Scheduler: rate gate (`need_to_limit_rate`) -/

/-- The `COUNT(*)` of `branch` rows with `status = 'testing'`. -/
def testingCount (db : Db) : Nat :=
  (db.branch_statuses.filter (fun s => s == "testing")).length

/-- `need_to_limit_rate` (`cfbot_patch.py` 28-37).  The `COUNT(*)` query
always returns one row, so the Python `row and row[0] >= ...` reduces to
the comparison. -/
def need_to_limit_rate (db : Db) : Bool :=
  decide (testingCount db ≥ CONCURRENT_BUILDS)

/-! ### Scheduler: bitrot fallback (`choose_submission_without_new_patch`) -/

/-- WHERE clause shared by the three bitrot queries: non-null
`last_message_id` and active status. -/
def bitrotElig (r : SubmissionRow) : Bool :=
  r.last_message_id.isSome && isActive r

/-- `last_branch_time > now() - INTERVAL '1 hour'` (a SQL NULL
`last_branch_time` never satisfies the comparison). -/
def recentBranch (now : Int) (r : SubmissionRow) : Bool :=
  match r.last_branch_time with
  | some t => decide (now - oneHour < t)
  | none => false

def bitrotCount (db : Db) : Nat := (db.submissions.filter bitrotElig).length

def currentRatePerHour (db : Db) : Nat :=
  (db.submissions.filter (fun r => bitrotElig r && recentBranch db.now r)).length

/-- `ORDER BY last_branch_time NULLS FIRST`. -/
def lbtLe (a b : Option Int) : Bool :=
  match a, b with
  | none, _ => true
  | some _, none => false
  | some x, some y => decide (x ≤ y)

theorem lbtLe_total (a b : Option Int) : lbtLe a b = true ∨ lbtLe b a = true := by
  rcases a with _ | x <;> rcases b with _ | y <;> simp [lbtLe] <;> omega

theorem lbtLe_trans (a b c : Option Int)
    (h1 : lbtLe a b = true) (h2 : lbtLe b c = true) : lbtLe a c = true := by
  rcases a with _ | x <;> rcases b with _ | y <;> rcases c with _ | z <;>
    simp [lbtLe] at * <;> omega

/-- `choose_submission_without_new_patch` (`cfbot_patch.py` 62-97).  The
Python float comparison `current_rate_per_hour < number / CYCLE_TIME` is
modelled by its exact rational counterpart (both sides are small integers
divided by 48, where double rounding cannot change the order). -/
def choose_submission_without_new_patch (db : Db) : Option Nat × Option Nat :=
  if (currentRatePerHour db : ℚ) < (bitrotCount db : ℚ) / CYCLE_TIME then
    match minByLe (fun a b => lbtLe a.last_branch_time b.last_branch_time)
        (db.submissions.filter bitrotElig) with
    | some r => (some r.commitfest_id, some r.submission_id)
    | none => (none, none)
  else (none, none)

/-- The rational rate test, as an integer comparison (used to evaluate the
scheduler on concrete databases, since rational normalization is not
kernel-reducible). -/
theorem rate_test_int (c n : Nat) :
    ((c : ℚ) < (n : ℚ) / CYCLE_TIME) ↔ 48 * c < n := by
  rw [CYCLE_TIME, lt_div_iff (by norm_num : (0 : ℚ) < 48), mul_comm]
  exact_mod_cast Iff.rfl

theorem choose_without_eval (db : Db) :
    choose_submission_without_new_patch db =
      if 48 * currentRatePerHour db < bitrotCount db then
        match minByLe (fun a b => lbtLe a.last_branch_time b.last_branch_time)
            (db.submissions.filter bitrotElig) with
        | some r => (some r.commitfest_id, some r.submission_id)
        | none => (none, none)
      else (none, none) := by
  simp only [choose_submission_without_new_patch]
  by_cases h : 48 * currentRatePerHour db < bitrotCount db
  · rw [if_pos ((rate_test_int _ _).mpr h), if_pos h]
  · rw [if_neg (fun hc => h ((rate_test_int _ _).mp hc)), if_neg h]

/-- C9: the bitrot fallback selects a submission only when the trailing-hour
rebuild count is strictly below the target rate (eligible count divided by
the 48-hour cycle time); when it selects, it picks an eligible submission
with the oldest `last_branch_time`, nulls (never built) first; otherwise it
returns `(None, None)`. -/
theorem bitrot_rate_and_oldest_selection (db : Db) :
    (¬ ((currentRatePerHour db : ℚ) < (bitrotCount db : ℚ) / CYCLE_TIME) →
       choose_submission_without_new_patch db = (none, none)) ∧
    (∀ cf sid, choose_submission_without_new_patch db = (some cf, some sid) →
       ((currentRatePerHour db : ℚ) < (bitrotCount db : ℚ) / CYCLE_TIME) ∧
       ∃ r ∈ db.submissions, bitrotElig r = true ∧ r.commitfest_id = cf ∧
         r.submission_id = sid ∧
         ∀ s ∈ db.submissions, bitrotElig s = true →
           lbtLe r.last_branch_time s.last_branch_time = true) := by
  constructor
  · intro hcond
    simp only [choose_submission_without_new_patch]
    rw [if_neg hcond]
  · intro cf sid h
    simp only [choose_submission_without_new_patch] at h
    by_cases hcond : (currentRatePerHour db : ℚ) < (bitrotCount db : ℚ) / CYCLE_TIME
    · refine ⟨hcond, ?_⟩
      rw [if_pos hcond] at h
      cases hmin : minByLe (fun a b => lbtLe a.last_branch_time b.last_branch_time)
          (db.submissions.filter bitrotElig) with
      | none => rw [hmin] at h; simp at h
      | some r =>
        rw [hmin] at h
        simp only [Prod.mk.injEq, Option.some.injEq] at h
        obtain ⟨hcf, hsid⟩ := h
        have hrmem := minByLe_mem _ _ r hmin
        have hmins := minByLe_le (fun a b => lbtLe a.last_branch_time b.last_branch_time)
          (fun a b => lbtLe_total _ _) (fun a b c => lbtLe_trans _ _ _) _ r hmin
        refine ⟨r, (List.mem_filter.mp hrmem).1, (List.mem_filter.mp hrmem).2,
          hcf, hsid, ?_⟩
        intro s hs hse
        exact hmins s (List.mem_filter.mpr ⟨hs, hse⟩)
    · rw [if_neg hcond] at h
      simp at h

/-- A database with two eligible (non-stale) submissions, one never built
(`last_branch_time` null), none rebuilt in the trailing hour. -/
def dbC9 : Db :=
  { submissions :=
      [ { commitfest_id := 2, submission_id := 8, status := "Waiting on Author",
          last_message_id := some "a1".toList,
          last_branch_message_id := some "a1".toList,
          last_branch_commit_id := some "c8", last_email_time := some 40,
          last_branch_time := some 500 },
        { commitfest_id := 1, submission_id := 7, status := "Needs review",
          last_message_id := some "a2".toList,
          last_branch_message_id := some "a2".toList,
          last_branch_commit_id := none, last_email_time := some 50,
          last_branch_time := none } ],
    branch_statuses := [], now := 100000 }

theorem bitrot_rate_and_oldest_selection_witness :
    ((currentRatePerHour dbC9 : ℚ) < (bitrotCount dbC9 : ℚ) / CYCLE_TIME) ∧
    ∃ r ∈ dbC9.submissions, bitrotElig r = true ∧ r.commitfest_id = 1 ∧
      r.submission_id = 7 ∧
      ∀ s ∈ dbC9.submissions, bitrotElig s = true →
        lbtLe r.last_branch_time s.last_branch_time = true :=
  (bitrot_rate_and_oldest_selection dbC9).2 1 7
    (by rw [choose_without_eval]; decide)

/-! ### Scheduler: `choose_submission` -/

/-- Python truthiness of `if submission_id:` applied to a nullable
integer column value. -/
def pyTruthy : Option Nat → Bool
  | none => false
  | some n => n != 0

/-- `choose_submission` (`cfbot_patch.py` 99-106): prefer the freshness
query; fall back to the bitrot query when its `submission_id` is falsy. -/
def choose_submission (db : Db) : Option Nat × Option Nat :=
  if pyTruthy (choose_submission_with_new_patch db).2 then
    choose_submission_with_new_patch db
  else choose_submission_without_new_patch db

/-- A stale active submission whose `submission_id` is 0 (falsy in Python),
alongside a non-stale eligible never-built submission that the bitrot
fallback prefers. -/
def dbC4 : Db :=
  { submissions :=
      [ { commitfest_id := 1, submission_id := 0, status := "Needs review",
          last_message_id := some "n1".toList, last_branch_message_id := none,
          last_branch_commit_id := none, last_email_time := some 5,
          last_branch_time := some 10 },
        { commitfest_id := 1, submission_id := 5, status := "Needs review",
          last_message_id := some "n2".toList,
          last_branch_message_id := some "n2".toList,
          last_branch_commit_id := none, last_email_time := some 9,
          last_branch_time := none } ],
    branch_statuses := [], now := 100000 }

/-- C4 counterexample: in `dbC4` a stale active submission exists, yet
`choose_submission` returns submission 5, which is not stale — the bitrot
fallback fired because the stale submission's id 0 is falsy in the Python
check `if submission_id:`. -/
theorem stale_preemption_fails_on_zero_id :
    (∃ r ∈ dbC4.submissions, staleActive r = true) ∧
    choose_submission dbC4 = (some 1, some 5) ∧
    ∀ r ∈ dbC4.submissions, r.submission_id = 5 → staleActive r = false := by
  refine ⟨by decide, ?_, by decide⟩
  simp only [choose_submission]
  rw [choose_without_eval]
  decide

/-- C4 as amended: when every submission id is nonzero, the bitrot fallback
is never taken while any stale active submission exists: `choose_submission`
equals the freshness selection and returns a stale active submission. -/
theorem stale_preempts_bitrot_nonzero_ids (db : Db)
    (hids : ∀ r ∈ db.submissions, r.submission_id ≠ 0)
    (h : ∃ r ∈ db.submissions, staleActive r = true) :
    choose_submission db = choose_submission_with_new_patch db ∧
    ∃ r ∈ db.submissions, staleActive r = true ∧
      choose_submission db = (some r.commitfest_id, some r.submission_id) := by
  obtain ⟨r, hrmem, hrstale, heq, -⟩ := exists_oldest_staleActive db h
  have htruthy : pyTruthy (choose_submission_with_new_patch db).2 = true := by
    rw [heq]
    simp [pyTruthy, hids r hrmem]
  have hch : choose_submission db = choose_submission_with_new_patch db := by
    simp only [choose_submission]
    rw [if_pos htruthy]
  exact ⟨hch, r, hrmem, hrstale, hch.trans heq⟩

theorem stale_preempts_bitrot_nonzero_ids_witness :
    choose_submission dbC1 = choose_submission_with_new_patch dbC1 ∧
    ∃ r ∈ dbC1.submissions, staleActive r = true ∧
      choose_submission dbC1 = (some r.commitfest_id, some r.submission_id) :=
  stale_preempts_bitrot_nonzero_ids dbC1 (by decide) (by decide)

/-! ### Thread resolution (`cfbot_commitfest_rpc.get_latest_patches_from_thread_url`)

The scraper walks the flat-thread page line by line, running two regex
searches on each line.  A page line is modelled by the captures of those
searches: `attachmentHref` when the line matches the attachment anchor
pattern (a path under `/message-id/attachment/` ending in a recognized
patch/archive extension), `msgIdCapture` when it matches the message-id row
pattern.  Strings are lists of characters so that suffix reasoning is
available. -/

structure ThreadLine where
  attachmentHref : Option (List Char)
  msgIdCapture : Option (List Char)
  deriving DecidableEq

/-- The constant prepended to every captured attachment path. -/
def urlBase : List Char := "https://www.postgresql.org".toList

/-- The hard-coded attachment name skipped by the scraper. -/
def jabiruName : List Char := "jabiru_2022-03-28_20-25-16.tar.gz".toList

def tgzExt : List Char := ".tgz".toList
def targzExt : List Char := ".tar.gz".toList
def tarbz2Ext : List Char := ".tar.bz2".toList
def zipExt : List Char := ".zip".toList
def gzExt : List Char := ".gz".toList

/-- Loop state of the scraper: the Python locals
`selected_message_attachments` (a list, or None after the final rejection),
`selected_message_id`, `message_attachments` and `message_id`. -/
structure ScanState where
  selAtts : Option (List (List Char))
  selId : Option (List Char)
  curAtts : List (List Char)
  curId : Option (List Char)
  deriving DecidableEq

def initScan : ScanState :=
  { selAtts := some [], selId := none, curAtts := [], curId := none }

/-- One loop iteration: on an attachment capture (other than the jabiru
tarball) append its URL and select the current message; then on a
message-id capture start a new message. -/
def scanStep (st : ScanState) (ln : ThreadLine) : ScanState :=
  let st1 :=
    match ln.attachmentHref with
    | some href =>
      if jabiruName.isSuffixOf href then st
      else
        let atts := st.curAtts ++ [urlBase ++ href]
        { st with curAtts := atts, selAtts := some atts, selId := st.curId }
    | none => st
  match ln.msgIdCapture with
  | some mid => { st1 with curId := some mid, curAtts := [] }
  | none => st1

def scanThread (lines : List ThreadLine) : ScanState :=
  lines.foldl scanStep initScan

/-- The tarball test of the final combination rule
(`.tgz` / `.tar.gz` / `.tar.bz2`). -/
def isTarball (u : List Char) : Bool :=
  tgzExt.isSuffixOf u || targzExt.isSuffixOf u || tarbz2Ext.isSuffixOf u

/-- `get_latest_patches_from_thread_url` (`cfbot_commitfest_rpc.py` 34-64):
the line scan followed by the rule that a tarball must be the sole
attachment. -/
def get_latest_patches_from_thread_url (lines : List ThreadLine) :
    Option (List Char) × Option (List (List Char)) :=
  let st := scanThread lines
  match st.selAtts with
  | some atts =>
    if atts.any isTarball && decide (atts.length > 1) then (none, none)
    else (st.selId, some atts)
  | none => (st.selId, none)

/-- C6: if the newest attachment-bearing message mixes a tarball attachment
with any other attachment, resolution returns none for both the message id
and the attachment list; when the tarball is the sole attachment the
message is accepted and its id and attachment URL are returned. -/
theorem tarball_sole_attachment_rule (lines : List ThreadLine) :
    (∀ atts, (scanThread lines).selAtts = some atts →
       atts.any isTarball = true → atts.length > 1 →
       get_latest_patches_from_thread_url lines = (none, none)) ∧
    (∀ u, (scanThread lines).selAtts = some [u] → isTarball u = true →
       get_latest_patches_from_thread_url lines =
         ((scanThread lines).selId, some [u])) := by
  constructor
  · intro atts h harch hlen
    have hb : (atts.any isTarball && decide (atts.length > 1)) = true := by
      rw [harch]
      simpa using hlen
    simp only [get_latest_patches_from_thread_url, h]
    rw [if_pos hb]
  · intro u h harch
    have hb : (([u].any isTarball) && decide (([u] : List (List Char)).length > 1)) = false := by
      simp
    simp only [get_latest_patches_from_thread_url, h]
    rw [if_neg (by simp [hb])]

def msgLineA : ThreadLine := { attachmentHref := none, msgIdCapture := some "msg-tar".toList }

def tarLineA : ThreadLine :=
  { attachmentHref := some "/message-id/attachment/1/x.tar.gz".toList, msgIdCapture := none }

def patchLineA : ThreadLine :=
  { attachmentHref := some "/message-id/attachment/2/y.patch".toList, msgIdCapture := none }

theorem tarball_sole_attachment_rule_witness :
    get_latest_patches_from_thread_url [msgLineA, tarLineA, patchLineA] = (none, none) ∧
    get_latest_patches_from_thread_url [msgLineA, tarLineA] =
      ((scanThread [msgLineA, tarLineA]).selId,
        some [urlBase ++ "/message-id/attachment/1/x.tar.gz".toList]) :=
  ⟨(tarball_sole_attachment_rule [msgLineA, tarLineA, patchLineA]).1
      [urlBase ++ "/message-id/attachment/1/x.tar.gz".toList,
       urlBase ++ "/message-id/attachment/2/y.patch".toList]
      (by decide) (by decide) (by decide),
   (tarball_sole_attachment_rule [msgLineA, tarLineA]).2
      (urlBase ++ "/message-id/attachment/1/x.tar.gz".toList)
      (by decide) (by decide)⟩

/-! ### C10: the jabiru tarball is unconditionally skipped -/

/-- URLs the scan can emit: the base prepended to a captured path that does
not end in the jabiru name. -/
def GoodUrl (u : List Char) : Prop :=
  ∃ h, u = urlBase ++ h ∧ jabiruName.isSuffixOf h = false

def ScanInv (st : ScanState) : Prop :=
  (∀ u ∈ st.curAtts, GoodUrl u) ∧
  (∀ atts, st.selAtts = some atts → ∀ u ∈ atts, GoodUrl u)

theorem scanStep_inv (st : ScanState) (ln : ThreadLine) (h : ScanInv st) :
    ScanInv (scanStep st ln) := by
  obtain ⟨h1, h2⟩ := h
  have hstep : ∀ st2 : ScanState, ScanInv st2 →
      ScanInv (match ln.msgIdCapture with
        | some mid => { st2 with curId := some mid, curAtts := [] }
        | none => st2) := by
    intro st2 hst2
    cases ln.msgIdCapture with
    | none => exact hst2
    | some mid => exact ⟨by simp, hst2.2⟩
  refine hstep _ ?_
  cases ha : ln.attachmentHref with
  | none => exact ⟨h1, h2⟩
  | some href =>
    by_cases hj : jabiruName.isSuffixOf href = true
    · simp only [hj, if_true]
      exact ⟨h1, h2⟩
    · have hjf : jabiruName.isSuffixOf href = false := by
        cases hb : jabiruName.isSuffixOf href
        · rfl
        · exact absurd hb hj
      simp only [hj, if_false]
      have hgood : ∀ u ∈ st.curAtts ++ [urlBase ++ href], GoodUrl u := by
        intro u hu
        rcases List.mem_append.mp hu with hu1 | hu1
        · exact h1 u hu1
        · rcases List.mem_singleton.mp hu1 with rfl
          exact ⟨href, rfl, hjf⟩
      exact ⟨hgood, fun atts hatts => by
        obtain rfl : st.curAtts ++ [urlBase ++ href] = atts := Option.some.inj hatts
        exact hgood⟩

theorem foldl_scanStep_inv (lines : List ThreadLine) :
    ∀ st : ScanState, ScanInv st → ScanInv (List.foldl scanStep st lines) := by
  induction lines with
  | nil => intro st h; exact h
  | cons ln lns ih =>
    intro st h
    exact ih _ (scanStep_inv st ln h)

theorem scanThread_inv (lines : List ThreadLine) : ScanInv (scanThread lines) := by
  refine foldl_scanStep_inv lines initScan ⟨?_, ?_⟩
  · intro u hu
    exact absurd hu (List.not_mem_nil u)
  · intro atts hatts u hu
    have heq : some ([] : List (List Char)) = some atts := hatts
    obtain rfl := Option.some.inj heq
    exact absurd hu (List.not_mem_nil u)

/-- The jabiru name cannot become a suffix again by prepending the URL
base: the name contains no slash while every captured path in scope starts
inside the base, and the base contains no letter j. -/
theorem jabiru_not_suffix_of_base_append (h : List Char)
    (hj : jabiruName.isSuffixOf h = false) :
    ¬ (jabiruName <:+ urlBase ++ h) := by
  intro hsuf
  have hh : h <:+ urlBase ++ h := List.suffix_append urlBase h
  rcases List.suffix_or_suffix_of_suffix hsuf hh with hjh | hhj
  · have hb := List.isSuffixOf_iff_suffix.mpr hjh
    rw [hj] at hb
    exact Bool.noConfusion hb
  · obtain ⟨s, hs⟩ := hhj
    obtain ⟨t, ht⟩ := hsuf
    rw [← hs, ← List.append_assoc] at ht
    have hts : t ++ s = urlBase := List.append_cancel_right ht
    cases s with
    | nil =>
      simp only [List.nil_append] at hs
      rw [hs] at hj
      have hrefl : jabiruName.isSuffixOf jabiruName = true :=
        List.isSuffixOf_iff_suffix.mpr (List.suffix_refl _)
      rw [hj] at hrefl
      exact Bool.noConfusion hrefl
    | cons c s2 =>
      have hc : c = 'j' := by
        have hhead : some c = some 'j' := by
          calc some c = ((c :: s2) ++ h).head? := rfl
            _ = jabiruName.head? := by rw [hs]
            _ = some 'j' := by decide
        exact (Option.some.inj hhead)
      have hmem : c ∈ urlBase := by
        rw [← hts]
        exact List.mem_append_right t (List.mem_cons_self c s2)
      rw [hc] at hmem
      exact absurd hmem (by decide)

theorem goodUrl_no_jabiru (u : List Char) (hg : GoodUrl u) :
    jabiruName.isSuffixOf u = false := by
  obtain ⟨h, rfl, hj⟩ := hg
  cases hb : jabiruName.isSuffixOf (urlBase ++ h) with
  | false => rfl
  | true =>
    exact absurd (List.isSuffixOf_iff_suffix.mp hb)
      (jabiru_not_suffix_of_base_append h hj)

/-- C10: the attachment list returned by resolution never contains a URL
ending in "jabiru_2022-03-28_20-25-16.tar.gz"; an attachment with that
name is skipped during the scan as if it were not attached. -/
theorem no_jabiru_url_in_resolution (lines : List ThreadLine)
    (atts : List (List Char))
    (h : (get_latest_patches_from_thread_url lines).2 = some atts) :
    ∀ u ∈ atts, jabiruName.isSuffixOf u = false := by
  intro u hu
  have hinv := scanThread_inv lines
  cases hsel : (scanThread lines).selAtts with
  | none =>
    simp only [get_latest_patches_from_thread_url, hsel] at h
    simp at h
  | some a =>
    simp only [get_latest_patches_from_thread_url, hsel] at h
    by_cases hcond : (a.any isTarball && decide (a.length > 1)) = true
    · rw [if_pos hcond] at h
      simp at h
    · rw [if_neg hcond] at h
      simp only [Prod.snd, Option.some.injEq] at h
      subst h
      exact goodUrl_no_jabiru u (hinv.2 a hsel u hu)

def msgLineB : ThreadLine := { attachmentHref := none, msgIdCapture := some "m0".toList }

def jabiruLine : ThreadLine :=
  { attachmentHref :=
      some "/message-id/attachment/9/jabiru_2022-03-28_20-25-16.tar.gz".toList,
    msgIdCapture := none }

def patchLineB : ThreadLine :=
  { attachmentHref := some "/message-id/attachment/10/fix.patch".toList,
    msgIdCapture := none }

theorem no_jabiru_url_in_resolution_witness :
    jabiruName.isSuffixOf (urlBase ++ "/message-id/attachment/10/fix.patch".toList) = false :=
  no_jabiru_url_in_resolution [msgLineB, jabiruLine, patchLineB]
    [urlBase ++ "/message-id/attachment/10/fix.patch".toList]
    (by decide) _ (by decide)

/-! ### Patch application (`cfbot_patch.process_submission`) -/

/-- One ordered patch file, together with the outcome of the external git
commands run on it: the `git mailinfo` stdout and extracted-message size
used by the classification, the exit status each apply path would report,
and the author and message a successful mailbox apply commits. -/
structure PatchFile where
  filename : String
  mailinfoOut : List Char
  msgSize : Nat
  rawApplyExit : Int
  amExit : Int
  amAuthor : String
  amMessage : String
  deriving DecidableEq

/-- A commit on the disposable branch: one created by a mailbox apply
(`git am` preserves the patch's author and message), or the provenance
commit `make_branch` creates from its fixed template
(`cfbot_patch.py` 116-138). -/
inductive Commit where
  | patch (author message : String)
  | provenance (commitfest_id submission_id : Nat)
      (message_id : Option (List Char)) (base_commit : String)
  deriving DecidableEq

inductive Route where
  | raw
  | mailbox
  deriving DecidableEq

/-- The classification `if not stdout.strip() and msgsize == 0`
(`cfbot_patch.py` 235): empty mailinfo output and an empty extracted
message mean a raw diff (`stdout.strip()` is empty exactly when the output
is all whitespace). -/
def classifyFile (f : PatchFile) : Route :=
  if f.mailinfoOut.all Char.isWhitespace && f.msgSize == 0 then .raw else .mailbox

/-- Exit status of the apply step taken for a file: `git apply --index`
for a raw diff, `git am --patch-format=mbox` otherwise. -/
def stepExit (f : PatchFile) : Int :=
  match classifyFile f with
  | .raw => f.rawApplyExit
  | .mailbox => f.amExit

/-- Commits the apply step adds to the branch: a raw diff stages into the
index without committing; a successful mailbox apply commits once with the
patch's author and message; a failed apply adds no commit. -/
def stepCommits (f : PatchFile) : List Commit :=
  match classifyFile f with
  | .raw => []
  | .mailbox => if f.amExit == 0 then [Commit.patch f.amAuthor f.amMessage] else []

/-- The apply loop (`cfbot_patch.py` 229-265): `rcode` starts at 0, each
file overwrites it with its apply exit status, and the loop breaks at the
first nonzero. -/
def applyLoop : List PatchFile → Int × List Commit
  | [] => (0, [])
  | f :: fs =>
    if stepExit f != 0 then (stepExit f, stepCommits f)
    else
      let rest := applyLoop fs
      (rest.1, stepCommits f ++ rest.2)

theorem stepCommits_of_fail (f : PatchFile) (hf : stepExit f ≠ 0) :
    stepCommits f = [] := by
  unfold stepExit at hf
  unfold stepCommits
  cases hcl : classifyFile f with
  | raw => rfl
  | mailbox =>
    rw [hcl] at hf
    rw [if_neg (by simpa using hf)]

theorem applyLoop_first_fail (pre : List PatchFile) (f : PatchFile)
    (rest : List PatchFile) (hpre : ∀ g ∈ pre, stepExit g = 0)
    (hf : stepExit f ≠ 0) :
    applyLoop (pre ++ f :: rest) = (stepExit f, pre.flatMap stepCommits) := by
  induction pre with
  | nil =>
    simp only [List.nil_append, applyLoop]
    rw [if_pos (by simpa using hf), stepCommits_of_fail f hf]
    simp
  | cons g gs ih =>
    have hg : stepExit g = 0 := hpre g (List.mem_cons_self g gs)
    simp only [List.cons_append, applyLoop]
    rw [if_neg (by simp [hg])]
    simp only [List.append_eq]
    rw [ih (fun x hx => hpre x (List.mem_cons_of_mem g hx))]
    simp

theorem applyLoop_all_ok (files : List PatchFile)
    (h : ∀ g ∈ files, stepExit g = 0) :
    applyLoop files = (0, files.flatMap stepCommits) := by
  induction files with
  | nil => simp [applyLoop]
  | cons g gs ih =>
    have hg : stepExit g = 0 := h g (List.mem_cons_self g gs)
    simp only [applyLoop]
    rw [if_neg (by simp [hg])]
    rw [ih (fun x hx => h x (List.mem_cons_of_mem g hx))]
    simp

/-! ### The attempt as a whole -/

/-- The exceptions an attempt can raise out of `process_submission`:
iterating over the `None` attachment list (`TypeError`), a failed
download, and `subprocess.check_call` on a failing external command
(`CalledProcessError`). -/
inductive PyError where
  | typeError
  | fetchError
  | calledProcessError (cmd : String)
  deriving DecidableEq

inductive ProcResult where
  | skippedNoThread
  | applied (rcode : Int) (branchCommits : List Commit) (pushedB : Bool)
  deriving DecidableEq

/-- `cfbot_config.GIT_REMOTE_NAME` (truthy, so the push runs). -/
def GIT_REMOTE_NAME : String := "github"

/-- The outcomes of the external commands one attempt runs, in program
order. -/
structure ProcEnv where
  commitfest_id : Nat
  submission_id : Nat
  thread_url : Option String
  threadLines : List ThreadLine
  repo_git_ok : Bool
  fetch_ok : Bool
  extract_ok : Bool
  checkout_ok : Bool
  base_commit : String
  files : List PatchFile
  push_ok : Bool
  deriving DecidableEq

/-- Does the decompression loop run any `check_call`/`gunzip`?
(`cfbot_patch.py` 208-214). -/
def needsExtract (urls : List (List Char)) : Bool :=
  urls.any (fun u => tgzExt.isSuffixOf u || targzExt.isSuffixOf u ||
    tarbz2Ext.isSuffixOf u || zipExt.isSuffixOf u || gzExt.isSuffixOf u)

/-- `process_submission` (`cfbot_patch.py` 165-280) as a function of the
command outcomes, raising `Except.error` where the Python raises.  The
database is threaded through: the function's only database access is
creating an unused cursor, so the store comes back unchanged. -/
def process_submission (env : ProcEnv) (db : Db) :
    Except PyError (ProcResult × Db) :=
  match env.thread_url with
  | none => .ok (.skippedNoThread, db)
  | some _ =>
    if env.repo_git_ok = false then .error (.calledProcessError "git") else
    match (get_latest_patches_from_thread_url env.threadLines).2 with
    | none => .error .typeError
    | some urls =>
      if urls ≠ [] ∧ env.fetch_ok = false then .error .fetchError else
      if needsExtract urls = true ∧ env.extract_ok = false then
        .error (.calledProcessError "tar") else
      if env.checkout_ok = false then .error (.calledProcessError "git checkout") else
      if (applyLoop env.files).1 != 0 then
        .ok (.applied (applyLoop env.files).1 (applyLoop env.files).2 false, db)
      else
        let commits := (applyLoop env.files).2 ++
          [Commit.provenance env.commitfest_id env.submission_id
            (get_latest_patches_from_thread_url env.threadLines).1 env.base_commit]
        if GIT_REMOTE_NAME ≠ "" then
          if env.push_ok = false then .error (.calledProcessError "git push")
          else .ok (.applied 0 commits true, db)
        else .ok (.applied 0 commits false, db)

/-- `maybe_process_one` (`cfbot_patch.py` 282-286): the rate gate, the
selection and the processing of the selected submission, whose external
command outcomes are `env`. -/
def maybe_process_one (db : Db) (env : ProcEnv) :
    Except PyError (Option (ProcResult × Db)) :=
  if need_to_limit_rate db then .ok none
  else
    if pyTruthy (choose_submission db).2 then
      (process_submission env db).map some
    else .ok none

/-- `update_submission` (`cfbot_patch.py` 149-162): set both message-id
columns to the given message id, record the branch commit id, and set the
branch time to now, on the matching row. -/
def update_submission (db : Db) (message_id : Option (List Char))
    (commit_id : String) (cf sid : Nat) : Db :=
  { db with submissions := db.submissions.map (fun r =>
      if r.commitfest_id == cf && r.submission_id == sid then
        { r with last_message_id := message_id,
                 last_branch_message_id := message_id,
                 last_branch_commit_id := some commit_id,
                 last_branch_time := some db.now }
      else r) }

/-! ### Path lemmas through `process_submission` -/

theorem process_noThread_eq (env : ProcEnv) (db : Db)
    (h : env.thread_url = none) :
    process_submission env db = .ok (.skippedNoThread, db) := by
  simp only [process_submission, h]

theorem process_typeError_eq (env : ProcEnv) (db : Db) (u : String)
    (hthread : env.thread_url = some u) (hgit : env.repo_git_ok = true)
    (hres : (get_latest_patches_from_thread_url env.threadLines).2 = none) :
    process_submission env db = .error .typeError := by
  simp only [process_submission, hthread, hres, hgit]
  simp

theorem process_fetchError_eq (env : ProcEnv) (db : Db) (u : String)
    (urls : List (List Char))
    (hthread : env.thread_url = some u) (hgit : env.repo_git_ok = true)
    (hres : (get_latest_patches_from_thread_url env.threadLines).2 = some urls)
    (hne : urls ≠ []) (hfetch : env.fetch_ok = false) :
    process_submission env db = .error .fetchError := by
  simp only [process_submission, hthread, hres, hgit]
  simp [hne, hfetch]

theorem process_extractError_eq (env : ProcEnv) (db : Db) (u : String)
    (urls : List (List Char))
    (hthread : env.thread_url = some u) (hgit : env.repo_git_ok = true)
    (hres : (get_latest_patches_from_thread_url env.threadLines).2 = some urls)
    (hfetch : env.fetch_ok = true) (hneed : needsExtract urls = true)
    (hext : env.extract_ok = false) :
    process_submission env db = .error (.calledProcessError "tar") := by
  simp only [process_submission, hthread, hres, hgit]
  simp [hfetch, hneed, hext]

theorem process_applyFail_eq (env : ProcEnv) (db : Db) (u : String)
    (urls : List (List Char)) (pre : List PatchFile) (f : PatchFile)
    (rest : List PatchFile)
    (hthread : env.thread_url = some u) (hgit : env.repo_git_ok = true)
    (hres : (get_latest_patches_from_thread_url env.threadLines).2 = some urls)
    (hfetch : env.fetch_ok = true) (hext : env.extract_ok = true)
    (hco : env.checkout_ok = true)
    (hfiles : env.files = pre ++ f :: rest)
    (hpre : ∀ g ∈ pre, stepExit g = 0) (hf : stepExit f ≠ 0) :
    process_submission env db =
      .ok (.applied (stepExit f) (pre.flatMap stepCommits) false, db) := by
  have happ := applyLoop_first_fail pre f rest hpre hf
  simp only [process_submission, hthread, hres, hgit]
  simp [hfetch, hext, hco, hfiles, happ, hf]

theorem process_success_eq (env : ProcEnv) (db : Db) (u : String)
    (urls : List (List Char)) (cs : List Commit)
    (hthread : env.thread_url = some u) (hgit : env.repo_git_ok = true)
    (hres : (get_latest_patches_from_thread_url env.threadLines).2 = some urls)
    (hfetch : env.fetch_ok = true) (hext : env.extract_ok = true)
    (hco : env.checkout_ok = true)
    (happly : applyLoop env.files = (0, cs)) (hpush : env.push_ok = true) :
    process_submission env db = .ok (.applied 0
      (cs ++ [Commit.provenance env.commitfest_id env.submission_id
        (get_latest_patches_from_thread_url env.threadLines).1 env.base_commit])
      true, db) := by
  simp only [process_submission, hthread, hres, hgit]
  simp [hfetch, hext, hco, happly, hpush, GIT_REMOTE_NAME]

theorem process_pushError_eq (env : ProcEnv) (db : Db) (u : String)
    (urls : List (List Char)) (cs : List Commit)
    (hthread : env.thread_url = some u) (hgit : env.repo_git_ok = true)
    (hres : (get_latest_patches_from_thread_url env.threadLines).2 = some urls)
    (hfetch : env.fetch_ok = true) (hext : env.extract_ok = true)
    (hco : env.checkout_ok = true)
    (happly : applyLoop env.files = (0, cs)) (hpush : env.push_ok = false) :
    process_submission env db = .error (.calledProcessError "git push") := by
  simp only [process_submission, hthread, hres, hgit]
  simp [hfetch, hext, hco, happly, hpush, GIT_REMOTE_NAME]

theorem stepCommits_mem (f : PatchFile) (c : Commit) (hc : c ∈ stepCommits f) :
    ∃ a m, c = Commit.patch a m := by
  cases hcl : classifyFile f with
  | raw =>
    simp only [stepCommits, hcl] at hc
    exact absurd hc (List.not_mem_nil c)
  | mailbox =>
    simp only [stepCommits, hcl] at hc
    by_cases h : (f.amExit == 0) = true
    · rw [if_pos h] at hc
      rcases List.mem_singleton.mp hc with rfl
      exact ⟨f.amAuthor, f.amMessage, rfl⟩
    · rw [if_neg h] at hc
      exact absurd hc (List.not_mem_nil c)

/-- C2: during the Applying phase the ordered files are applied in
sequence, stopping at the first file whose apply step exits nonzero; on
such a failure no provenance commit is created, the branch is never
pushed, and the branch carries no commits beyond those of the files
preceding the failing one. -/
theorem apply_stops_at_first_failure (env : ProcEnv) (db : Db) (u : String)
    (urls : List (List Char)) (pre : List PatchFile) (f : PatchFile)
    (rest : List PatchFile)
    (hthread : env.thread_url = some u) (hgit : env.repo_git_ok = true)
    (hres : (get_latest_patches_from_thread_url env.threadLines).2 = some urls)
    (hfetch : env.fetch_ok = true) (hext : env.extract_ok = true)
    (hco : env.checkout_ok = true)
    (hfiles : env.files = pre ++ f :: rest)
    (hpre : ∀ g ∈ pre, stepExit g = 0) (hf : stepExit f ≠ 0) :
    process_submission env db =
      .ok (.applied (stepExit f) (pre.flatMap stepCommits) false, db) ∧
    ∀ c ∈ pre.flatMap stepCommits, ∃ a m, c = Commit.patch a m := by
  refine ⟨process_applyFail_eq env db u urls pre f rest hthread hgit hres
    hfetch hext hco hfiles hpre hf, ?_⟩
  intro c hc
  obtain ⟨g, -, hg⟩ := List.exists_of_mem_flatMap hc
  exact stepCommits_mem g c hg

/-- A raw diff that applies cleanly, then a mailbox patch whose
`git am` exits 1, then a further file the loop must not reach. -/
def fileRawOk : PatchFile :=
  { filename := "0001-a.patch", mailinfoOut := [], msgSize := 0,
    rawApplyExit := 0, amExit := 77, amAuthor := "", amMessage := "" }

def fileMailboxBad : PatchFile :=
  { filename := "0002-b.patch", mailinfoOut := "From: Alice".toList, msgSize := 12,
    rawApplyExit := 0, amExit := 1, amAuthor := "Alice", amMessage := "fix" }

def fileAfter : PatchFile :=
  { filename := "0003-c.patch", mailinfoOut := "From: Bob".toList, msgSize := 9,
    rawApplyExit := 0, amExit := 0, amAuthor := "Bob", amMessage := "more" }

def envC2 : ProcEnv :=
  { commitfest_id := 3, submission_id := 11, thread_url := some "thread",
    threadLines := [msgLineA, patchLineA], repo_git_ok := true,
    fetch_ok := true, extract_ok := true, checkout_ok := true,
    base_commit := "base2", files := [fileRawOk, fileMailboxBad, fileAfter],
    push_ok := true }

theorem apply_stops_at_first_failure_witness :
    process_submission envC2 dbC1 = .ok (.applied 1 [] false, dbC1) :=
  (apply_stops_at_first_failure envC2 dbC1 "thread"
    [urlBase ++ "/message-id/attachment/2/y.patch".toList]
    [fileRawOk] fileMailboxBad [fileAfter]
    rfl rfl (by decide) rfl rfl rfl rfl (by decide) (by decide)).1

/-! ### C5: raw diff vs mailbox routing -/

theorem classify_raw (f : PatchFile)
    (h : (f.mailinfoOut.all Char.isWhitespace && f.msgSize == 0) = true) :
    classifyFile f = .raw := by
  unfold classifyFile
  rw [if_pos h]

theorem classify_mailbox (f : PatchFile)
    (h : (f.mailinfoOut.all Char.isWhitespace && f.msgSize == 0) = false) :
    classifyFile f = .mailbox := by
  unfold classifyFile
  rw [if_neg (by simp [h])]

theorem flatMap_stepCommits_nil (files : List PatchFile)
    (h : ∀ g ∈ files, stepCommits g = []) :
    files.flatMap stepCommits = [] := by
  induction files with
  | nil => simp
  | cons g gs ih =>
    simp [h g (List.mem_cons_self g gs),
      ih (fun x hx => h x (List.mem_cons_of_mem g hx))]

/-- C5: a file whose mailinfo header extraction yields empty output and
whose extracted message body has size zero is applied as a raw diff
directly against the index and contributes no commit of its own — after a
successful all-raw run the provenance commit is the only commit on the
branch; any other file is applied as a mailbox patch and, on success,
produces exactly one commit preserving the author and message from the
patch. -/
theorem raw_diff_vs_mailbox_routing :
    (∀ f : PatchFile,
       (f.mailinfoOut.all Char.isWhitespace && f.msgSize == 0) = true →
       classifyFile f = .raw ∧ stepExit f = f.rawApplyExit ∧ stepCommits f = []) ∧
    (∀ f : PatchFile,
       (f.mailinfoOut.all Char.isWhitespace && f.msgSize == 0) = false →
       classifyFile f = .mailbox ∧ stepExit f = f.amExit ∧
       (f.amExit = 0 → stepCommits f = [Commit.patch f.amAuthor f.amMessage])) ∧
    (∀ (env : ProcEnv) (db : Db) (u : String) (urls : List (List Char)),
       env.thread_url = some u → env.repo_git_ok = true →
       (get_latest_patches_from_thread_url env.threadLines).2 = some urls →
       env.fetch_ok = true → env.extract_ok = true → env.checkout_ok = true →
       env.push_ok = true →
       (∀ g ∈ env.files,
         (g.mailinfoOut.all Char.isWhitespace && g.msgSize == 0) = true ∧
         g.rawApplyExit = 0) →
       process_submission env db = .ok (.applied 0
         [Commit.provenance env.commitfest_id env.submission_id
           (get_latest_patches_from_thread_url env.threadLines).1 env.base_commit]
         true, db)) := by
  refine ⟨?_, ?_, ?_⟩
  · intro f h
    have hcl := classify_raw f h
    exact ⟨hcl, by simp [stepExit, hcl], by simp [stepCommits, hcl]⟩
  · intro f h
    have hcl := classify_mailbox f h
    refine ⟨hcl, by simp [stepExit, hcl], ?_⟩
    intro h0
    simp [stepCommits, hcl, h0]
  · intro env db u urls ht hg hres hf he hc hp hall
    have hexit : ∀ g ∈ env.files, stepExit g = 0 := by
      intro g hg2
      obtain ⟨hcond, hraw⟩ := hall g hg2
      simp [stepExit, classify_raw g hcond, hraw]
    have hcs : ∀ g ∈ env.files, stepCommits g = [] := by
      intro g hg2
      simp [stepCommits, classify_raw g (hall g hg2).1]
    have happ := applyLoop_all_ok env.files hexit
    rw [flatMap_stepCommits_nil env.files hcs] at happ
    have hfin := process_success_eq env db u urls [] ht hg hres hf he hc happ hp
    simpa using hfin

def envC5 : ProcEnv :=
  { commitfest_id := 4, submission_id := 13, thread_url := some "t5",
    threadLines := [msgLineA, patchLineA], repo_git_ok := true,
    fetch_ok := true, extract_ok := true, checkout_ok := true,
    base_commit := "base5",
    files := [{ filename := "0001-raw.diff", mailinfoOut := [], msgSize := 0,
                rawApplyExit := 0, amExit := 3, amAuthor := "", amMessage := "" }],
    push_ok := true }

theorem raw_diff_vs_mailbox_routing_witness :
    (classifyFile fileRawOk = .raw ∧ stepExit fileRawOk = fileRawOk.rawApplyExit ∧
      stepCommits fileRawOk = []) ∧
    process_submission envC5 dbC9 = .ok (.applied 0
      [Commit.provenance 4 13 (some "msg-tar".toList) "base5"] true, dbC9) :=
  ⟨raw_diff_vs_mailbox_routing.1 fileRawOk (by decide),
   raw_diff_vs_mailbox_routing.2.2 envC5 dbC9 "t5"
     [urlBase ++ "/message-id/attachment/2/y.patch".toList]
     rfl rfl (by decide) rfl rfl rfl rfl (by decide)⟩

/-! ### C3: the rate gate -/

/-- C3: when the count of branches with status 'testing' reaches the
concurrency budget, the tick selects no submission and processes nothing,
whatever the submission backlog and the pending command outcomes. -/
theorem rate_gate_blocks_processing (db : Db) (env : ProcEnv)
    (h : testingCount db ≥ CONCURRENT_BUILDS) :
    maybe_process_one db env = .ok none := by
  have hb : need_to_limit_rate db = true := decide_eq_true h
  simp only [maybe_process_one]
  rw [if_pos hb]

/-- Many eligible stale submissions, but one branch already testing. -/
def dbC3 : Db :=
  { submissions :=
      [ { commitfest_id := 6, submission_id := 21, status := "Needs review",
          last_message_id := some "q1".toList, last_branch_message_id := none,
          last_branch_commit_id := none, last_email_time := some 2,
          last_branch_time := none },
        { commitfest_id := 6, submission_id := 22, status := "Ready for Committer",
          last_message_id := some "q2".toList, last_branch_message_id := none,
          last_branch_commit_id := none, last_email_time := some 4,
          last_branch_time := none } ],
    branch_statuses := ["testing"], now := 0 }

theorem rate_gate_blocks_processing_witness :
    maybe_process_one dbC3 envC2 = .ok none :=
  rate_gate_blocks_processing dbC3 envC2 (by decide)

/-! ### C7: the store is never updated after a successful push -/

def dbC7 : Db :=
  { submissions :=
      [ { commitfest_id := 1, submission_id := 2, status := "Needs review",
          last_message_id := some "old".toList,
          last_branch_message_id := some "old".toList,
          last_branch_commit_id := some "oldbase", last_email_time := some 3,
          last_branch_time := none } ],
    branch_statuses := [], now := 5000 }

def envC7 : ProcEnv :=
  { commitfest_id := 1, submission_id := 2, thread_url := some "t7",
    threadLines := [msgLineA, patchLineA], repo_git_ok := true,
    fetch_ok := true, extract_ok := true, checkout_ok := true,
    base_commit := "base77", files := [], push_ok := true }

/-- C7 (code bug): a fully successful build-and-push attempt returns the
store unchanged — `process_submission` never calls `update_submission` —
while the update the claim requires (both message-id columns set to the
resolved id, the baseline commit id and the branch time recorded) would
have changed the store. -/
theorem successful_push_leaves_store_unchanged :
    process_submission envC7 dbC7 =
      .ok (.applied 0 [Commit.provenance 1 2 (some "msg-tar".toList) "base77"]
        true, dbC7) ∧
    update_submission dbC7 (some "msg-tar".toList) "base77" 1 2 ≠ dbC7 :=
  ⟨rfl, by decide⟩

/-! ### C8: which failures raise out of the attempt -/

def dbC8 : Db :=
  { submissions :=
      [ { commitfest_id := 1, submission_id := 42, status := "Needs review",
          last_message_id := some "z9".toList, last_branch_message_id := none,
          last_branch_commit_id := none, last_email_time := some 1,
          last_branch_time := none } ],
    branch_statuses := [], now := 0 }

def envC8 : ProcEnv :=
  { commitfest_id := 1, submission_id := 42, thread_url := some "t8",
    threadLines := [msgLineA, tarLineA, patchLineA], repo_git_ok := true,
    fetch_ok := true, extract_ok := true, checkout_ok := true,
    base_commit := "b8", files := [], push_ok := true }

/-- C8 counterexample: an AmbiguousAttachments attempt (a tarball plus a
patch on the newest message, so resolution yields `(None, None)`) raises a
TypeError that propagates out of `maybe_process_one` instead of being
recorded as an attempt-scoped failure. -/
theorem ambiguous_attachments_raises :
    get_latest_patches_from_thread_url envC8.threadLines = (none, none) ∧
    maybe_process_one dbC8 envC8 = .error .typeError :=
  ⟨by decide, rfl⟩

/-- C8 as amended: NoThread and ApplyError are attempt-scoped and handled
without raising (the submission is skipped, or the attempt stops with
nothing pushed); but AmbiguousAttachments, FetchError, ExtractError and
PushError propagate as exceptions out of `process_submission` and hence
out of `maybe_process_one`. -/
theorem error_scoping_amended (env : ProcEnv) (db : Db) :
    (env.thread_url = none →
       process_submission env db = .ok (.skippedNoThread, db)) ∧
    (∀ u urls pre f rest, env.thread_url = some u → env.repo_git_ok = true →
       (get_latest_patches_from_thread_url env.threadLines).2 = some urls →
       env.fetch_ok = true → env.extract_ok = true → env.checkout_ok = true →
       env.files = pre ++ f :: rest → (∀ g ∈ pre, stepExit g = 0) →
       stepExit f ≠ 0 →
       process_submission env db =
         .ok (.applied (stepExit f) (pre.flatMap stepCommits) false, db)) ∧
    (∀ u, env.thread_url = some u → env.repo_git_ok = true →
       (get_latest_patches_from_thread_url env.threadLines).2 = none →
       process_submission env db = .error .typeError) ∧
    (∀ u urls, env.thread_url = some u → env.repo_git_ok = true →
       (get_latest_patches_from_thread_url env.threadLines).2 = some urls →
       urls ≠ [] → env.fetch_ok = false →
       process_submission env db = .error .fetchError) ∧
    (∀ u urls, env.thread_url = some u → env.repo_git_ok = true →
       (get_latest_patches_from_thread_url env.threadLines).2 = some urls →
       env.fetch_ok = true → needsExtract urls = true → env.extract_ok = false →
       process_submission env db = .error (.calledProcessError "tar")) ∧
    (∀ u urls cs, env.thread_url = some u → env.repo_git_ok = true →
       (get_latest_patches_from_thread_url env.threadLines).2 = some urls →
       env.fetch_ok = true → env.extract_ok = true → env.checkout_ok = true →
       applyLoop env.files = (0, cs) → env.push_ok = false →
       process_submission env db = .error (.calledProcessError "git push")) :=
  ⟨fun h => process_noThread_eq env db h,
   fun u urls pre f rest ht hg hres hf he hc hfl hp hff =>
     process_applyFail_eq env db u urls pre f rest ht hg hres hf he hc hfl hp hff,
   fun u ht hg hres => process_typeError_eq env db u ht hg hres,
   fun u urls ht hg hres hne hf =>
     process_fetchError_eq env db u urls ht hg hres hne hf,
   fun u urls ht hg hres hf hneed he =>
     process_extractError_eq env db u urls ht hg hres hf hneed he,
   fun u urls cs ht hg hres hf he hc ha hp =>
     process_pushError_eq env db u urls cs ht hg hres hf he hc ha hp⟩

theorem error_scoping_amended_witness :
    process_submission envC8 dbC8 = .error .typeError :=
  (error_scoping_amended envC8 dbC8).2.2.1 "t8" rfl rfl (by decide)

end Cfbot
